import Mathlib

/-!
Verification of the koreilly repository's retrying HTTP client, streaming
downloader, authentication persistence and CSRF-token extraction, as a
shallow embedding of the Go sources in Lean 4.

Sources embedded:
- `internal/client/client.go` (`doWithRetry`, `calculateBackoff`)
- the `client` package variant with `Client.do`, `RetryPolicy.CalculateBackoff`,
  `PostWithHeaders`
- `internal/services/oreilly/download.go` (`DownloadEPUB`, `DownloadPDF`)
- the `auth` package (`Authenticate`, `GetToken`, `IsAuthenticated`),
  `internal/config/config.go` (`Config.Save`), `internal/app/app.go` (`Run`)
- the `oreilly` service variants with `getCSRFToken` / `extractCSRFToken`
-/

namespace Koreilly

/-! ### HTTP transport model

An attempt either fails at the network level or yields a response with a
status code.  A mock transport maps the attempt index to its outcome. -/

structure Response where
  statusCode : Nat
  deriving Repr, DecidableEq

inductive Outcome where
  | netErr : Outcome
  | resp : Response → Outcome
  deriving Repr, DecidableEq

/-- A mock transport that fails (network error) for the first `n` attempts and
then answers 200. -/
def failNThenOk (n : Nat) : Nat → Outcome :=
  fun i => if i < n then Outcome.netErr else Outcome.resp ⟨200⟩

/-- A mock transport that answers status `s` for the first `n` attempts and
then answers 200. -/
def statusNThenOk (n s : Nat) : Nat → Outcome :=
  fun i => if i < n then Outcome.resp ⟨s⟩ else Outcome.resp ⟨200⟩

/-! ### `internal/client/client.go`: `doWithRetry`

```go
for attempt := 0; attempt <= c.retryPolicy.MaxRetries; attempt++ {
    resp, err = c.client.Do(req)
    if err == nil && resp.StatusCode < 500 { return resp, nil }
    if resp != nil { resp.Body.Close() }
    if attempt == c.retryPolicy.MaxRetries || !isRetryableError(err) { break }
    time.Sleep(c.calculateBackoff(attempt))
}
return nil, err
```

`isRetryableError(err)` is `err != nil`.  The model records the returned
`(resp, err)` pair and the number of attempts made.  `err` is modelled as
`Option Unit` (`some ()` = a non-nil network error). -/

structure GoDoRes where
  resp : Option Response
  err : Option Unit
  attempts : Nat
  deriving Repr, DecidableEq

def isRetryableError (err : Option Unit) : Bool :=
  err.isSome

def doWithRetryAux (tr : Nat → Outcome) (maxRetries : Nat) :
    Nat → Nat → GoDoRes
  | _, 0 => ⟨none, none, 0⟩
  | attempt, fuel + 1 =>
    match tr attempt with
    | Outcome.resp r =>
      if r.statusCode < 500 then ⟨some r, none, attempt + 1⟩
      else
        -- err is nil here, so `!isRetryableError(err)` breaks the loop at once
        ⟨none, none, attempt + 1⟩
    | Outcome.netErr =>
      if attempt = maxRetries then ⟨none, some (), attempt + 1⟩
      else doWithRetryAux tr maxRetries (attempt + 1) fuel

def doWithRetry (tr : Nat → Outcome) (maxRetries : Nat) : GoDoRes :=
  doWithRetryAux tr maxRetries 0 (maxRetries + 1)

/-! ### The `client` package variant: `RetryPolicy` and `Client.do`

```go
type RetryPolicy struct {
    MaxRetries           int
    RetryableStatusCodes []int
    InitialBackoff       time.Duration
    MaxBackoff           time.Duration
}
```

`Client.do` loops `attempt := 0; attempt <= MaxRetries`, returning the
response as soon as it is not a retryable status; after the loop it wraps the
last error with the attempt count, or returns the last response. -/

structure RetryPolicy where
  maxRetries : Nat
  retryableStatusCodes : List Nat
  initialBackoff : ℚ
  maxBackoff : ℚ
  deriving Repr, DecidableEq

def RetryPolicy.shouldRetry (p : RetryPolicy) (statusCode : Nat) : Bool :=
  p.retryableStatusCodes.contains statusCode

def defaultRetryPolicy : RetryPolicy :=
  ⟨3, [500, 502, 503, 504], 100000000, 5000000000⟩

/-- Result of `Client.do`: either the returned response, or an error wrapping
the total attempt count (`request failed after %d attempts`), plus the number
of attempts actually made. -/
structure PartDoRes where
  res : Except Nat Response
  attempts : Nat
  deriving Repr

def clientDoAux (p : RetryPolicy) (tr : Nat → Outcome) :
    Nat → Nat → PartDoRes
  | _, 0 => ⟨Except.error 0, 0⟩
  | attempt, fuel + 1 =>
    match tr attempt with
    | Outcome.resp r =>
      if p.shouldRetry r.statusCode then
        if attempt < p.maxRetries then clientDoAux p tr (attempt + 1) fuel
        else
          -- loop exhausted with err == nil: `return resp, nil`
          ⟨Except.ok r, attempt + 1⟩
      else ⟨Except.ok r, attempt + 1⟩
    | Outcome.netErr =>
      if attempt < p.maxRetries then clientDoAux p tr (attempt + 1) fuel
      else ⟨Except.error (p.maxRetries + 1), attempt + 1⟩

def clientDo (p : RetryPolicy) (tr : Nat → Outcome) : PartDoRes :=
  clientDoAux p tr 0 (p.maxRetries + 1)

/-! ### Backoff calculations

`internal/client/client.go`:

```go
backoff := c.retryPolicy.MinDelay * time.Duration(1<<uint(attempt))
if backoff > c.retryPolicy.MaxDelay { backoff = c.retryPolicy.MaxDelay }
jitter := time.Duration(0.75 * float64(backoff))
return backoff/2 + time.Duration(rand.Int63n(int64(jitter)))
```

Durations are integers (nanoseconds).  `rand.Int63n(j)` draws uniformly from
`[0, j)`; the model takes the draw `r` as an argument.  `0.75 * float64(b)`
truncated back to an integer duration is `3 * b / 4` (integer division) for
the magnitudes involved. -/

structure GoRetryPolicy where
  maxRetries : Nat
  minDelay : ℤ
  maxDelay : ℤ
  deriving Repr, DecidableEq

def clampedBackoff (p : GoRetryPolicy) (attempt : Nat) : ℤ :=
  if p.minDelay * 2 ^ attempt > p.maxDelay then p.maxDelay
  else p.minDelay * 2 ^ attempt

def goJitterBound (p : GoRetryPolicy) (attempt : Nat) : ℤ :=
  3 * clampedBackoff p attempt / 4

def calculateBackoff (p : GoRetryPolicy) (attempt : Nat) (r : ℤ) : ℤ :=
  clampedBackoff p attempt / 2 + r

/-- The pre-clamp, pre-jitter exponential backoff of `calculateBackoff`. -/
def goRawBackoff (p : GoRetryPolicy) (attempt : Nat) : ℤ :=
  p.minDelay * 2 ^ attempt

/-!
The `client` package variant:

```go
backoff := float64(r.InitialBackoff) * math.Pow(2, float64(attempt))
jitter := 0.5 + rand.Float64()
delay := time.Duration(backoff * jitter)
if delay > r.MaxBackoff { delay = r.MaxBackoff }
return delay
```

The jitter factor is `1/2 + u` with `u` drawn uniformly from `[0, 1)`; the
model takes `u` as an argument and computes over `ℚ`, truncating the product
to an integer duration as `time.Duration(...)` does. -/

def partRawBackoff (p : RetryPolicy) (attempt : Nat) : ℚ :=
  p.initialBackoff * 2 ^ attempt

def partCalculateBackoff (p : RetryPolicy) (attempt : Nat) (u : ℚ) : ℚ :=
  if (⌊partRawBackoff p attempt * (1 / 2 + u)⌋ : ℚ) > p.maxBackoff then
    p.maxBackoff
  else (⌊partRawBackoff p attempt * (1 / 2 + u)⌋ : ℚ)

/-! ### `internal/services/oreilly/download.go`

`DownloadEPUB` / `DownloadPDF` stream a response body to a temporary file and
rename it into place.  The environment of one HTTP GET is modelled explicitly:
the response (or network error), the sequence of `resp.Body.Read` results, and
the success of each filesystem operation.  `Read` results are a list of
events; each event carries the bytes delivered, the error returned together
with them (`nil`, `io.EOF` or another error), whether the corresponding
`tmpFile.Write` fails (covering write errors and short writes), and whether
`time.Since(lastEmit) > 250*time.Millisecond` held at that point (the wall
clock is external nondeterminism). -/

inductive ReadErr where
  | eof : ReadErr
  | fail : ReadErr
  deriving Repr, DecidableEq

structure ReadEv where
  bytes : List Nat
  err : Option ReadErr
  writeFail : Bool
  throttleOpen : Bool
  deriving Repr, DecidableEq

structure Env where
  netErr : Bool
  status : Nat
  contentType : String
  contentLength : ℤ
  body : List ReadEv
  mkdirFail : Bool
  createTempFail : Bool
  syncFail : Bool
  closeFail : Bool
  renameFail : Bool
  tmpName : String
  deriving Repr

def isPrefixList (sub s : List Char) : Bool :=
  match sub, s with
  | [], _ => true
  | _ :: _, [] => false
  | a :: sub', b :: s' => a = b && isPrefixList sub' s'

/-- Go `strings.HasPrefix(s, pre)`. -/
def strStartsWith (s pre : String) : Bool :=
  isPrefixList pre.data s.data

/-- The filesystem: contents of the paths the downloader touches. -/
abbrev FS := List (String × List Nat)

def fsGet : FS → String → Option (List Nat)
  | [], _ => none
  | e :: fs, path => if e.1 = path then some e.2 else fsGet fs path

def fsRemove : FS → String → FS
  | [], _ => []
  | e :: fs, path =>
    if e.1 = path then fsRemove fs path else e :: fsRemove fs path

def fsSet (fs : FS) (path : String) (content : List Nat) : FS :=
  (path, content) :: fsRemove fs path

/-- Go `os.Rename(src, dst)`: move the file at `src` to `dst` (overwriting). -/
def fsRename (fs : FS) (src dst : String) : FS :=
  match fsGet fs src with
  | some content => fsSet (fsRemove fs src) dst content
  | none => fs

inductive LoopErr where
  | writeErr : LoopErr
  | readErr : LoopErr
  | ranOut : LoopErr
  deriving Repr, DecidableEq

/-- Result of the streaming copy loop: the bytes written to the temp file, the
emitted progress percentages, and how the loop ended (`none` = clean `io.EOF`
break). -/
structure LoopOut where
  content : List Nat
  emits : List ℚ
  res : Option LoopErr
  deriving Repr

/-- One `Read`/`Write` iteration of the copy loop in `DownloadEPUB` /
`DownloadPDF`:

```go
nr, er := resp.Body.Read(buf)
if nr > 0 {
    nw, ew := tmpFile.Write(buf[0:nr])
    if ew != nil { return ... }
    if nw < nr { return ... }
    written += int64(nw)
    if progress != nil && contentLen > 0 {
        if time.Since(lastEmit) > 250*time.Millisecond || er == io.EOF {
            progress(float64(written) * 100 / float64(contentLen))
            lastEmit = time.Now()
        }
    }
}
if er != nil {
    if er == io.EOF { break }
    return ...
}
```
-/
def runLoop (hasProgress : Bool) (clen : ℤ) :
    List ReadEv → List Nat → List ℚ → LoopOut
  | [], written, emits => ⟨written, emits, some LoopErr.ranOut⟩
  | e :: rest, written, emits =>
    if e.bytes.length > 0 then
      if e.writeFail then ⟨written, emits, some LoopErr.writeErr⟩
      else
        let written' := written ++ e.bytes
        let emits' :=
          if hasProgress ∧ 0 < clen ∧ (e.throttleOpen ∨ e.err = some ReadErr.eof)
          then emits ++ [(written'.length : ℚ) * 100 / (clen : ℚ)]
          else emits
        match e.err with
        | none => runLoop hasProgress clen rest written' emits'
        | some ReadErr.eof => ⟨written', emits', none⟩
        | some ReadErr.fail => ⟨written', emits', some LoopErr.readErr⟩
    else
      match e.err with
      | none => runLoop hasProgress clen rest written emits
      | some ReadErr.eof => ⟨written, emits, none⟩
      | some ReadErr.fail => ⟨written, emits, some LoopErr.readErr⟩

/-- The bytes a body delivers when the loop terminates cleanly (reaches an
`io.EOF` without a read or write failure), `none` otherwise. -/
def cleanBody : List ReadEv → Option (List Nat)
  | [] => none
  | e :: rest =>
    if e.writeFail ∧ e.bytes.length > 0 then none
    else
      match e.err with
      | none => (cleanBody rest).map (fun c => e.bytes ++ c)
      | some ReadErr.eof => some e.bytes
      | some ReadErr.fail => none

inductive DlErr where
  | emptyJwt : DlErr
  | emptySlug : DlErr
  | emptyDest : DlErr
  | reqErr : DlErr
  | pdfNotFound : DlErr
  | statusErr : Nat → DlErr
  | badContentType : String → DlErr
  | mkdirErr : DlErr
  | createTempErr : DlErr
  | copyErr : LoopErr → DlErr
  | syncErr : DlErr
  | closeErr : DlErr
  | renameErr : DlErr
  | epubPdfNotFound : DlErr → DlErr
  deriving Repr, DecidableEq

/-- Result of a download call: the error (if any), the filesystem afterwards,
the progress percentages emitted, and the endpoints requested (in order). -/
structure DlRes where
  err : Option DlErr
  fs : FS
  emits : List ℚ
  reqs : List String
  deriving Repr

def epubCT : String := "application/epub"

def pdfCT : String := "application/pdf"

def epubEndpoint (slug : String) : String :=
  "https://learning.oreilly.com/api/v2/epubs/" ++ slug ++ ".epub"

def pdfEndpoint (slug : String) : String :=
  "https://learning.oreilly.com/api/v2/pdfs/" ++ slug ++ ".pdf"

/-- Go `strings.TrimSuffix(s, suffix)`. -/
def trimSuffix (s suffix : String) : String :=
  if suffix.data.isSuffixOf s.data then
    ⟨s.data.take (s.data.length - suffix.data.length)⟩
  else s

def epubSuffix : String := ".epub"

def pdfSuffix : String := ".pdf"

/-- The fallback destination derived in `DownloadEPUB`:
`strings.TrimSuffix(destPath, ".epub") + ".pdf"`. -/
def pdfDestOf (dest : String) : String :=
  ⟨(trimSuffix dest epubSuffix).data ++ pdfSuffix.data⟩

/-- The temp-file phase shared by both downloads: create the temp file, run
the copy loop, sync, close, rename, with the deferred
`tmpFile.Close(); os.Remove(tmpFile.Name())` applied on every exit. -/
def commitPhase (env : Env) (dest : String) (hasProgress : Bool) (fs : FS)
    (reqs : List String) : DlRes :=
  if env.createTempFail then ⟨some DlErr.createTempErr, fs, [], reqs⟩
  else
    let lo := runLoop hasProgress env.contentLength env.body [] []
    let fsTmp := fsSet fs env.tmpName lo.content
    match lo.res with
    | some e => ⟨some (DlErr.copyErr e), fsRemove fsTmp env.tmpName, lo.emits, reqs⟩
    | none =>
      if env.syncFail then ⟨some DlErr.syncErr, fsRemove fsTmp env.tmpName, lo.emits, reqs⟩
      else if env.closeFail then
        ⟨some DlErr.closeErr, fsRemove fsTmp env.tmpName, lo.emits, reqs⟩
      else if env.renameFail then
        ⟨some DlErr.renameErr, fsRemove fsTmp env.tmpName, lo.emits, reqs⟩
      else
        ⟨none, fsRemove (fsRename fsTmp env.tmpName dest) env.tmpName, lo.emits, reqs⟩

/-- The function `DownloadPDF(ctx, jwt, slug, destPath, progress)`. -/
def downloadPDF (jwt slug dest : String) (env : Env) (hasProgress : Bool)
    (fs : FS) : DlRes :=
  if jwt = "" then ⟨some DlErr.emptyJwt, fs, [], []⟩
  else if slug = "" then ⟨some DlErr.emptySlug, fs, [], []⟩
  else if dest = "" then ⟨some DlErr.emptyDest, fs, [], []⟩
  else
    let reqs := [pdfEndpoint slug]
    if env.netErr then ⟨some DlErr.reqErr, fs, [], reqs⟩
    else if env.status = 200 then
      if ¬ strStartsWith env.contentType pdfCT then
        ⟨some (DlErr.badContentType env.contentType), fs, [], reqs⟩
      else if env.mkdirFail then ⟨some DlErr.mkdirErr, fs, [], reqs⟩
      else commitPhase env dest hasProgress fs reqs
    else if env.status = 404 then ⟨some DlErr.pdfNotFound, fs, [], reqs⟩
    else ⟨some (DlErr.statusErr env.status), fs, [], reqs⟩

/-- The function `DownloadEPUB(ctx, jwt, slug, destPath, progress)`.  `envE` is the
environment of the EPUB request, `envP` that of the PDF fallback request (only
consulted when the EPUB endpoint answers 404). -/
def downloadEPUB (jwt slug dest : String) (envE envP : Env)
    (hasProgress : Bool) (fs : FS) : DlRes :=
  if jwt = "" then ⟨some DlErr.emptyJwt, fs, [], []⟩
  else if slug = "" then ⟨some DlErr.emptySlug, fs, [], []⟩
  else if dest = "" then ⟨some DlErr.emptyDest, fs, [], []⟩
  else
    let req := epubEndpoint slug
    if envE.netErr then ⟨some DlErr.reqErr, fs, [], [req]⟩
    else if envE.status = 200 then
      if ¬ strStartsWith envE.contentType epubCT then
        ⟨some (DlErr.badContentType envE.contentType), fs, [], [req]⟩
      else if envE.mkdirFail then ⟨some DlErr.mkdirErr, fs, [], [req]⟩
      else commitPhase envE dest hasProgress fs [req]
    else if envE.status = 404 then
      let r := downloadPDF jwt slug (pdfDestOf dest) envP hasProgress fs
      match r.err with
      | none => ⟨none, r.fs, r.emits, req :: r.reqs⟩
      | some e => ⟨some (DlErr.epubPdfNotFound e), r.fs, r.emits, req :: r.reqs⟩
    else ⟨some (DlErr.statusErr envE.status), fs, [], [req]⟩

/-! ### `internal/config/config.go` and the `auth` package

`Config.Save` runs `viper.Set` on the four keys below and then writes
`config.yaml`; the model records the key/value pairs written to the file.
`Authenticate` logs in, writes the token file, copies the username (only)
into the config and calls `Config.Save`. -/

structure Config where
  username : String
  password : String
  gmailEmail : String
  kindleEmail : String
  deriving Repr, DecidableEq

def keyUsername : String := "username"

def keyPassword : String := "password"

def keyGmailEmail : String := "gmail.email"

def keyKindleEmail : String := "kindle.email"

/-- The key/value pairs `Config.Save` writes to `config.yaml`. -/
def configSave (c : Config) : List (String × String) :=
  [(keyUsername, c.username), (keyPassword, c.password),
   (keyGmailEmail, c.gmailEmail), (keyKindleEmail, c.kindleEmail)]

structure Token where
  accessToken : String
  tokenType : String
  expiresIn : ℤ
  expiresAt : ℤ
  deriving Repr, DecidableEq

structure LoginResponse where
  accessToken : String
  tokenType : String
  expiresIn : ℤ
  deriving Repr, DecidableEq

inductive AuthErr where
  | invalidCredentials : AuthErr
  | loginFailed : AuthErr
  | notAuthenticated : AuthErr
  | parseErr : AuthErr
  deriving Repr, DecidableEq

/-- What `Authenticate` leaves on disk: the token file and the config file
(`none` = not written by this call). -/
structure AuthEffects where
  tokenFile : Option Token
  configFile : Option (List (String × String))
  deriving Repr, DecidableEq

/-- The method `auth.Service.Authenticate(ctx, username, password)`.  `loginResult` is
the outcome of `oreilly.Login`; `now` is the current Unix time in seconds. -/
def authenticate (cfg : Config) (username password : String)
    (loginResult : Except Unit LoginResponse) (now : ℤ) :
    Except AuthErr Token × AuthEffects :=
  if username = "" ∨ password = "" then
    (Except.error AuthErr.invalidCredentials, ⟨none, none⟩)
  else
    match loginResult with
    | Except.error _ => (Except.error AuthErr.loginFailed, ⟨none, none⟩)
    | Except.ok resp =>
      let token : Token :=
        ⟨resp.accessToken, resp.tokenType, resp.expiresIn, now + resp.expiresIn⟩
      let cfg' := { cfg with username := username }
      (Except.ok token, ⟨some token, some (configSave cfg')⟩)

/-- The method `auth.Service.GetToken`: read and unmarshal the token file.  The argument
is the state of the file: `none` = absent, `some (.error ())` = unreadable or
invalid JSON, `some (.ok t)` = parses as `t`. -/
def getToken (tokenFile : Option (Except Unit Token)) : Except AuthErr Token :=
  match tokenFile with
  | none => Except.error AuthErr.notAuthenticated
  | some (Except.error _) => Except.error AuthErr.parseErr
  | some (Except.ok t) => Except.ok t

/-- The method `auth.Service.IsAuthenticated`: `_, err := s.GetToken(); return err == nil`. -/
def isAuthenticated (tokenFile : Option (Except Unit Token)) : Bool :=
  match getToken tokenFile with
  | Except.ok _ => true
  | Except.error _ => false

/-- The start of `app.Run`: `if authSvc.IsAuthenticated() { ...; return nil }` — whether
the interactive login flow is skipped at process start. -/
def runSkipsLogin (tokenFile : Option (Except Unit Token)) : Bool :=
  isAuthenticated tokenFile

/-! ### CSRF-token extraction (the `oreilly` service variants)

The Go code extracts the anti-forgery token with `regexp` patterns over the
login-page HTML.  The patterns only use literals, character classes with
`*`/`+` quantifiers and capturing groups over character classes, so they are
embedded via a small backtracking matcher with Go's leftmost, greedy
semantics. -/

inductive Quant where
  | one : Quant
  | star : Quant
  | plus : Quant
  deriving Repr, DecidableEq

inductive RItem where
  | lit : Char → RItem
  | cls : (Char → Bool) → Quant → RItem
  | grp : (Char → Bool) → RItem

def countWhile (p : Char → Bool) : List Char → Nat
  | [] => 0
  | c :: s => if p c then countWhile p s + 1 else 0

/-- The list `[hi, hi - 1, ..., lo]` (empty when `hi < lo`). -/
def downFrom (hi lo : Nat) : List Nat :=
  (List.range (hi + 1 - lo)).map (fun i => hi - i)

/-- Match a pattern against a prefix of `s`; returns the captured groups (in
order) and the number of characters consumed.  Quantifiers are greedy with
backtracking, matching Go's leftmost-first semantics for these patterns.
The fuel argument (always called with at least the pattern length, which
every recursive call decreases by one) keeps the recursion structural. -/
def matchSeqF : Nat → List RItem → List Char → Option (List (List Char) × Nat)
  | 0, _, _ => none
  | _ + 1, [], _ => some ([], 0)
  | _ + 1, RItem.lit _ :: _, [] => none
  | fuel + 1, RItem.lit c :: rest, d :: s =>
    if d = c then (matchSeqF fuel rest s).map (fun r => (r.1, r.2 + 1))
    else none
  | fuel + 1, RItem.cls p q :: rest, s =>
    let n := countWhile p s
    let lo := match q with
      | Quant.star => 0
      | _ => 1
    let hi := match q with
      | Quant.one => min 1 n
      | _ => n
    (downFrom hi lo).findSome? (fun k =>
      (matchSeqF fuel rest (s.drop k)).map (fun r => (r.1, r.2 + k)))
  | fuel + 1, RItem.grp p :: rest, s =>
    let n := countWhile p s
    (downFrom n 1).findSome? (fun k =>
      (matchSeqF fuel rest (s.drop k)).map (fun r => (s.take k :: r.1, r.2 + k)))

def matchSeq (items : List RItem) (s : List Char) :
    Option (List (List Char) × Nat) :=
  matchSeqF (items.length + 1) items s

/-- Leftmost match of a pattern in `s`: start index, captures, length. -/
def reFind (items : List RItem) : List Char → Option (Nat × List (List Char) × Nat)
  | [] => (matchSeq items []).map (fun r => (0, r.1, r.2))
  | s =>
    match s with
    | [] => none
    | _ :: t =>
      match matchSeq items s with
      | some r => some (0, r.1, r.2)
      | none => (reFind items t).map (fun r => (r.1 + 1, r.2.1, r.2.2))

/-- All non-overlapping leftmost matches (Go `FindAllStringSubmatch`); each
entry is the captures plus the matched text.  `fuel` bounds the recursion and
is called with `s.length + 1`. -/
def reFindAll (items : List RItem) : Nat → List Char →
    List (List (List Char) × List Char)
  | 0, _ => []
  | fuel + 1, s =>
    match reFind items s with
    | none => []
    | some (start, caps, len) =>
      (caps, (s.drop start).take len) ::
        reFindAll items fuel (s.drop (start + max len 1))

def isQuoteCh (c : Char) : Bool :=
  c = Char.ofNat 34 || c = Char.ofNat 39

def notQuoteCh (c : Char) : Bool :=
  !(c = Char.ofNat 34 || c = Char.ofNat 39)

def notGtCh (c : Char) : Bool :=
  c ≠ '>'

def notDqCh (c : Char) : Bool :=
  c ≠ Char.ofNat 34

/-- Go regexp `\s` = `[\t\n\f\r ]`. -/
def isSpaceCh (c : Char) : Bool :=
  c = ' ' || c = Char.ofNat 9 || c = Char.ofNat 10 || c = Char.ofNat 12 ||
    c = Char.ofNat 13

def lits (s : String) : List RItem :=
  s.data.map RItem.lit

def fragNameEq : String := "name="

def fragValueEq : String := "value="

def fragContentEq : String := "content="

def fragCsrfMiddleware : String := "csrfmiddlewaretoken"

def fragCsrfDashToken : String := "csrf-token"

def fragInputOpen : String := "<input"

def fragMetaOpen : String := "<meta"

def fragWindowCsrf : String := "window.csrfToken"

def fragCsrfTokenName : String := "csrfToken"

def fragTypeEq : String := "type="

def fragHidden : String := "hidden"

def fragCsrf : String := "csrf"

def fragCsrftokenCookie : String := "csrftoken"

/-- Pattern `name=['"]csrfmiddlewaretoken['"][^>]*value=['"]([^'"]+)` — the hidden
input fallback in the `getCSRFToken` variant. -/
def hiddenInputPat : List RItem :=
  lits fragNameEq ++ [RItem.cls isQuoteCh Quant.one] ++ lits fragCsrfMiddleware ++
    [RItem.cls isQuoteCh Quant.one, RItem.cls notGtCh Quant.star] ++
    lits fragValueEq ++ [RItem.cls isQuoteCh Quant.one, RItem.grp notQuoteCh]

/-- Pattern `<input[^>]+name=["']csrfmiddlewaretoken["'][^>]+value=["']([^"']+)` -/
def exPat1 : List RItem :=
  lits fragInputOpen ++ [RItem.cls notGtCh Quant.plus] ++ lits fragNameEq ++
    [RItem.cls isQuoteCh Quant.one] ++ lits fragCsrfMiddleware ++
    [RItem.cls isQuoteCh Quant.one, RItem.cls notGtCh Quant.plus] ++
    lits fragValueEq ++ [RItem.cls isQuoteCh Quant.one, RItem.grp notQuoteCh]

/-- Pattern `<input[^>]+value=["']([^"']+)["'][^>]+name=["']csrfmiddlewaretoken["']` -/
def exPat2 : List RItem :=
  lits fragInputOpen ++ [RItem.cls notGtCh Quant.plus] ++ lits fragValueEq ++
    [RItem.cls isQuoteCh Quant.one, RItem.grp notQuoteCh,
     RItem.cls isQuoteCh Quant.one, RItem.cls notGtCh Quant.plus] ++
    lits fragNameEq ++ [RItem.cls isQuoteCh Quant.one] ++ lits fragCsrfMiddleware ++
    [RItem.cls isQuoteCh Quant.one]

/-- Pattern `<meta[^>]+name=["']csrf-token["'][^>]+content=["']([^"']+)` -/
def exPat3 : List RItem :=
  lits fragMetaOpen ++ [RItem.cls notGtCh Quant.plus] ++ lits fragNameEq ++
    [RItem.cls isQuoteCh Quant.one] ++ lits fragCsrfDashToken ++
    [RItem.cls isQuoteCh Quant.one, RItem.cls notGtCh Quant.plus] ++
    lits fragContentEq ++ [RItem.cls isQuoteCh Quant.one, RItem.grp notQuoteCh]

/-- Pattern `window\.csrfToken\s*=\s*["']([^"']+)` -/
def exPat4 : List RItem :=
  lits fragWindowCsrf ++
    [RItem.cls isSpaceCh Quant.star, RItem.lit '=', RItem.cls isSpaceCh Quant.star,
     RItem.cls isQuoteCh Quant.one, RItem.grp notQuoteCh]

/-- Pattern `"csrfToken"\s*:\s*"([^"]+)"` -/
def exPat5 : List RItem :=
  [RItem.lit (Char.ofNat 34)] ++ lits fragCsrfTokenName ++
    [RItem.lit (Char.ofNat 34), RItem.cls isSpaceCh Quant.star, RItem.lit ':',
     RItem.cls isSpaceCh Quant.star, RItem.lit (Char.ofNat 34),
     RItem.grp notDqCh, RItem.lit (Char.ofNat 34)]

/-- Pattern `<meta[^>]+name=["']csrfmiddlewaretoken["'][^>]+content=["']([^"']+)` -/
def exPat6 : List RItem :=
  lits fragMetaOpen ++ [RItem.cls notGtCh Quant.plus] ++ lits fragNameEq ++
    [RItem.cls isQuoteCh Quant.one] ++ lits fragCsrfMiddleware ++
    [RItem.cls isQuoteCh Quant.one, RItem.cls notGtCh Quant.plus] ++
    lits fragContentEq ++ [RItem.cls isQuoteCh Quant.one, RItem.grp notQuoteCh]

def extractPats : List (List RItem) :=
  [exPat1, exPat2, exPat3, exPat4, exPat5, exPat6]

/-- Pattern `<input[^>]+name=["']([^"']+)["'][^>]+value=["']([^"']+)["']` — the
"any form input whose name contains csrf" fallback. -/
def fallbackPat : List RItem :=
  lits fragInputOpen ++ [RItem.cls notGtCh Quant.plus] ++ lits fragNameEq ++
    [RItem.cls isQuoteCh Quant.one, RItem.grp notQuoteCh,
     RItem.cls isQuoteCh Quant.one, RItem.cls notGtCh Quant.plus] ++
    lits fragValueEq ++
    [RItem.cls isQuoteCh Quant.one, RItem.grp notQuoteCh,
     RItem.cls isQuoteCh Quant.one]

/-- Pattern `<input[^>]+type=["']hidden["'][^>]+>` -/
def hiddenTagPat : List RItem :=
  lits fragInputOpen ++ [RItem.cls notGtCh Quant.plus] ++ lits fragTypeEq ++
    [RItem.cls isQuoteCh Quant.one] ++ lits fragHidden ++
    [RItem.cls isQuoteCh Quant.one, RItem.cls notGtCh Quant.plus, RItem.lit '>']

/-- Pattern `name=["']([^"']+)["']` -/
def namePat : List RItem :=
  lits fragNameEq ++
    [RItem.cls isQuoteCh Quant.one, RItem.grp notQuoteCh, RItem.cls isQuoteCh Quant.one]

/-- Pattern `value=["']([^"']+)["']` -/
def valuePat : List RItem :=
  lits fragValueEq ++
    [RItem.cls isQuoteCh Quant.one, RItem.grp notQuoteCh, RItem.cls isQuoteCh Quant.one]

/-- Whitespace as `strings.TrimSpace` treats it (ASCII range). -/
def isGoSpace (c : Char) : Bool :=
  c = ' ' || c = Char.ofNat 9 || c = Char.ofNat 10 || c = Char.ofNat 11 ||
    c = Char.ofNat 12 || c = Char.ofNat 13

def trimLeftList : List Char → List Char
  | [] => []
  | c :: s => if isGoSpace c then trimLeftList s else c :: s

/-- Go `strings.TrimSpace` on a char list. -/
def trimList (s : List Char) : List Char :=
  (trimLeftList (trimLeftList s).reverse).reverse

def lowerCh (c : Char) : Char :=
  if 'A' ≤ c && c ≤ 'Z' then Char.ofNat (c.toNat + 32) else c

/-- Go `strings.ToLower` on a char list (ASCII range). -/
def lowerList (s : List Char) : List Char :=
  s.map lowerCh

/-- Go `strings.Contains(s, sub)` on char lists. -/
def listContainsSub (sub : List Char) : List Char → Bool
  | [] => sub.isEmpty
  | s =>
    match s with
    | [] => sub.isEmpty
    | _ :: t => isPrefixList sub s || listContainsSub sub t

/-- The ordered-pattern stage of `extractCSRFToken`: first pattern whose first
capture, trimmed, is non-empty. -/
def firstCapNonempty (pats : List (List RItem)) (body : List Char) :
    Option String :=
  pats.findSome? (fun pat =>
    match reFind pat body with
    | some (_, cap :: _, _) =>
      let token := String.mk (trimList cap)
      if token = "" then none else some token
    | _ => none)

/-- The "form input whose name contains csrf" fallback of
`extractCSRFToken`. -/
def fallbackFormInput (body : List Char) : Option String :=
  (reFindAll fallbackPat (body.length + 1) body).findSome? (fun m =>
    match m.1 with
    | nameCap :: valueCap :: _ =>
      if listContainsSub fragCsrf.data (lowerList nameCap) then
        some (String.mk (trimList valueCap))
      else none
    | _ => none)

/-- The hidden-input fallback of `extractCSRFToken`. -/
def fallbackHidden (body : List Char) : Option String :=
  (reFindAll hiddenTagPat (body.length + 1) body).findSome? (fun m =>
    match reFind namePat m.2 with
    | some (_, nameCap :: _, _) =>
      if listContainsSub fragCsrf.data (lowerList nameCap) then
        match reFind valuePat m.2 with
        | some (_, valueCap :: _, _) => some (String.mk (trimList valueCap))
        | _ => none
      else none
    | _ => none)

/-- The function `extractCSRFToken(body string) (string, error)` (the variant with the
six-pattern cascade plus two fallback scans). -/
def extractCSRFToken (body : String) : Except Unit String :=
  match firstCapNonempty extractPats body.data with
  | some t => Except.ok t
  | none =>
    match fallbackFormInput body.data with
    | some t => Except.ok t
    | none =>
      match fallbackHidden body.data with
      | some t => Except.ok t
      | none => Except.error ()

/-- The method `getCSRFToken` (the variant that checks the `csrftoken` response cookie
first, then falls back to the hidden-input regex over the page body). -/
def getCSRFToken (cookies : List (String × String)) (body : String) :
    Except Unit String :=
  let fromCookie :=
    match cookies.find? (fun c => c.1 = fragCsrftokenCookie) with
    | some c => c.2
    | none => ""
  let token :=
    if fromCookie = "" then
      match reFind hiddenInputPat body.data with
      | some (_, cap :: _, _) => String.mk cap
      | _ => ""
    else fromCookie
  if token = "" then Except.error () else Except.ok token

/-! ### Concrete fixtures used by witnesses and counterexamples -/

/-- A transport answering one 503 response, then 200. -/
def oneStatus503 : Nat → Outcome := statusNThenOk 1 503

/-- A transport answering 503 on every attempt. -/
def all503 : Nat → Outcome := fun _ => Outcome.resp ⟨503⟩

/-- A transport failing at the network level on every attempt. -/
def allNetErr : Nat → Outcome := fun _ => Outcome.netErr

/-- A retry policy with `MinDelay = MaxDelay = 8` ns. -/
def smallGoPolicy : GoRetryPolicy := ⟨3, 8, 8⟩

def jwtFix : String := "j"

def slugFix : String := "s"

def destFix : String := "b.epub"

def tmpEFix : String := ".goreilly-1.epub"

def tmpPFix : String := ".goreilly-2.pdf"

/-- A 200 EPUB response delivering `[1, 2]` with EOF on the data read. -/
def okEpubEnv : Env :=
  ⟨false, 200, "application/epub+zip", 2,
    [⟨[1, 2], some ReadErr.eof, false, true⟩],
    false, false, false, false, false, tmpEFix⟩

/-- A 200 EPUB response delivering `[7]` with `er == nil`, then EOF on a
separate empty read, with the throttle closed at the data read. -/
def splitEofEnv : Env :=
  ⟨false, 200, "application/epub+zip", 1,
    [⟨[7], none, false, false⟩, ⟨[], some ReadErr.eof, false, true⟩],
    false, false, false, false, false, tmpEFix⟩

/-- A 200 EPUB response truncated after 3 of 5 declared bytes. -/
def truncatedEnv : Env :=
  ⟨false, 200, "application/epub+zip", 5,
    [⟨[1, 2], none, false, true⟩, ⟨[3], some ReadErr.fail, false, true⟩],
    false, false, false, false, false, tmpEFix⟩

/-- A 404 response. -/
def notFoundEnv : Env :=
  ⟨false, 404, "", 0, [], false, false, false, false, false, tmpPFix⟩

/-- A 200 PDF response delivering `[9, 9, 9]`. -/
def okPdfEnv : Env :=
  ⟨false, 200, "application/pdf", 3,
    [⟨[9, 9, 9], some ReadErr.eof, false, true⟩],
    false, false, false, false, false, tmpPFix⟩

def secretPw : String := "hunter2"

def aliceName : String := "alice"

def typedPw : String := "pw"

/-- A config whose file already held a password (e.g. set by the user), as
`config.Load` produces it. -/
def cfgWithSecret : Config := ⟨"", secretPw, "", ""⟩

def loginOkResp : Except Unit LoginResponse :=
  Except.ok ⟨"tok", "Bearer", 3600⟩

/-- A persisted token whose expiry (Unix time 0) is long past. -/
def expiredTok : Token := ⟨"tok", "Bearer", 3600, 0⟩

def tokenVal : String := "TOK123"

/-- Fixture login page placing the token in a hidden form input. -/
def hiddenFix : String :=
  "<form><input type=\"hidden\" name=\"csrfmiddlewaretoken\" value=\"TOK123\"></form>"

/-- Fixture login page placing the token in a meta tag. -/
def metaFix : String :=
  "<html><meta name=\"csrf-token\" content=\"TOK123\"></html>"

/-- Fixture response cookies placing the token in the `csrftoken` cookie. -/
def cookieFix : List (String × String) := [(fragCsrftokenCookie, tokenVal)]

def noTokenFix : String := "<html><body>plain page</body></html>"

def emptyBody : String := ""

def emptyStr : String := ""

end Koreilly

/-! ## Theorems -/

namespace Koreilly

theorem fsGet_nil (path : String) : fsGet [] path = none := rfl

theorem fsGet_fsSet_self (fs : FS) (k : String) (v : List Nat) :
    fsGet (fsSet fs k v) k = some v := by
  simp [fsGet, fsSet]

theorem fsGet_fsRemove_ne (fs : FS) (k q : String) (h : q ≠ k) :
    fsGet (fsRemove fs k) q = fsGet fs q := by
  have hk : ¬ (k = q) := fun hh => h hh.symm
  induction fs with
  | nil => rfl
  | cons e fs ih =>
    by_cases he : e.1 = k
    · have hq : ¬ (e.1 = q) := by rw [he]; exact fun hh => h hh.symm
      simp [fsRemove, fsGet, he, hq, hk, h, ih]
    · by_cases hq : e.1 = q
      · simp [fsRemove, fsGet, he, hq, hk, h]
      · simp [fsRemove, fsGet, he, hq, hk, h, ih]

theorem fsGet_fsRemove_self (fs : FS) (k : String) :
    fsGet (fsRemove fs k) k = none := by
  induction fs with
  | nil => rfl
  | cons e fs ih =>
    by_cases he : e.1 = k
    · simpa [fsRemove, he] using ih
    · simpa [fsRemove, fsGet, he] using ih

theorem fsGet_fsSet_ne (fs : FS) (k q : String) (v : List Nat) (h : q ≠ k) :
    fsGet (fsSet fs k v) q = fsGet fs q := by
  have hk : ¬ (k = q) := fun hh => h hh.symm
  calc fsGet (fsSet fs k v) q = fsGet (fsRemove fs k) q := by
        simp [fsSet, fsGet, hk]
    _ = fsGet fs q := fsGet_fsRemove_ne fs k q h

theorem fsRemove_of_fresh (fs : FS) (k : String) (h : fsGet fs k = none) :
    fsRemove fs k = fs := by
  induction fs with
  | nil => rfl
  | cons e fs ih =>
    by_cases he : e.1 = k
    · simp [fsGet, he] at h
    · simp [fsGet, he] at h
      simp [fsRemove, he, ih h]

theorem fsRemove_idem (fs : FS) (k : String) :
    fsRemove (fsRemove fs k) k = fsRemove fs k :=
  fsRemove_of_fresh _ _ (fsGet_fsRemove_self fs k)

theorem fsRemove_fsSet_fresh (fs : FS) (k : String) (v : List Nat)
    (h : fsGet fs k = none) : fsRemove (fsSet fs k v) k = fs := by
  simp [fsSet, fsRemove, fsRemove_idem, fsRemove_of_fresh fs k h]

/-- The file-state result of a successful temp-write/rename/deferred-remove
sequence: exactly the destination updated. -/
theorem commit_fs_eq (fs : FS) (tmp dest : String) (c : List Nat)
    (hfresh : fsGet fs tmp = none) (hne : tmp ≠ dest) :
    fsRemove (fsRename (fsSet fs tmp c) tmp dest) tmp = fsSet fs dest c := by
  have h1 : fsRename (fsSet fs tmp c) tmp dest = fsSet fs dest c := by
    rw [fsRename, fsGet_fsSet_self, fsRemove_fsSet_fresh fs tmp c hfresh]
  rw [h1]
  have h2 : fsGet (fsSet fs dest c) tmp = none := by
    rw [fsGet_fsSet_ne fs dest tmp c hne]
    exact hfresh
  exact fsRemove_of_fresh _ _ h2

theorem runLoop_clean (hasProgress : Bool) (clen : ℤ) :
    ∀ (body : List ReadEv) (w : List Nat) (em : List ℚ) (c : List Nat),
      cleanBody body = some c →
      (runLoop hasProgress clen body w em).content = w ++ c ∧
        (runLoop hasProgress clen body w em).res = none := by
  intro body
  induction body with
  | nil => intro w em c hc; simp [cleanBody] at hc
  | cons e rest ih =>
    intro w em c hc
    by_cases hlen : e.bytes.length > 0
    · cases hwf : e.writeFail with
      | true => simp [cleanBody, hwf, hlen] at hc
      | false =>
        cases herr : e.err with
        | none =>
          simp [cleanBody, hwf, hlen, herr] at hc
          rcases hc with ⟨c', hc', rfl⟩
          simp [runLoop, hwf, hlen, herr]
          refine ⟨?_, (ih _ _ c' hc').2⟩
          rw [(ih _ _ c' hc').1, List.append_assoc]
        | some re =>
          cases re with
          | eof =>
            simp [cleanBody, hwf, hlen, herr] at hc
            subst hc
            simp [runLoop, hwf, hlen, herr]
          | fail => simp [cleanBody, hwf, hlen, herr] at hc
    · have hbytes : e.bytes = [] := List.length_eq_zero.mp (by omega)
      cases herr : e.err with
      | none =>
        simp [cleanBody, hbytes, herr] at hc
        have hrec := ih w em c hc
        simp only [runLoop, hbytes, herr]
        simpa using hrec
      | some re =>
        cases re with
        | eof =>
          simp [cleanBody, hbytes, herr] at hc
          subst hc
          simp [runLoop, hbytes, herr]
        | fail => simp [cleanBody, hbytes, herr] at hc

theorem runLoop_dirty (hasProgress : Bool) (clen : ℤ) :
    ∀ (body : List ReadEv) (w : List Nat) (em : List ℚ),
      cleanBody body = none →
      (runLoop hasProgress clen body w em).res.isSome := by
  intro body
  induction body with
  | nil => intro w em _; simp [runLoop]
  | cons e rest ih =>
    intro w em hc
    by_cases hlen : e.bytes.length > 0
    · cases hwf : e.writeFail with
      | true => simp [runLoop, hlen, hwf]
      | false =>
        cases herr : e.err with
        | none =>
          simp [cleanBody, hwf, hlen, herr] at hc
          simp [runLoop, hlen, hwf, herr]
          exact ih _ _ hc
        | some re =>
          cases re with
          | eof => simp [cleanBody, hwf, hlen, herr] at hc
          | fail => simp [runLoop, hlen, hwf, herr]
    · have hbytes : e.bytes = [] := List.length_eq_zero.mp (by omega)
      cases herr : e.err with
      | none =>
        simp [cleanBody, hbytes, herr] at hc
        simp only [runLoop, hbytes, herr]
        simpa using ih w em hc
      | some re =>
        cases re with
        | eof => simp [cleanBody, hbytes, herr] at hc
        | fail => simp [runLoop, hbytes, herr]

theorem runLoop_emits_const (hasProgress : Bool) (clen : ℤ)
    (h : hasProgress = false ∨ clen ≤ 0) :
    ∀ (body : List ReadEv) (w : List Nat) (em : List ℚ),
      (runLoop hasProgress clen body w em).emits = em := by
  intro body
  have hcond : ∀ (t : Bool), ¬ (hasProgress = true ∧ 0 < clen ∧ t = true) := by
    intro t hh
    rcases h with h | h
    · rw [h] at hh; exact absurd hh.1 (by simp)
    · omega
  induction body with
  | nil => intro w em; simp [runLoop]
  | cons e rest ih =>
    intro w em
    by_cases hlen : e.bytes.length > 0
    · cases hwf : e.writeFail with
      | true => simp [runLoop, hlen, hwf]
      | false =>
        cases herr : e.err with
        | none =>
          simp [runLoop, hlen, hwf, herr, hcond e.throttleOpen]
          exact ih _ _
        | some re =>
          cases re with
          | eof =>
            simp [runLoop, hlen, hwf, herr]
            intro ht
            rcases h with h | h
            · rw [ht] at h; exact absurd h (by simp)
            · exact h
          | fail =>
            simp [runLoop, hlen, hwf, herr]
            intro ht hcl
            rcases h with h | h
            · rw [ht] at h; exact absurd h (by simp)
            · exact absurd hcl (not_lt.mpr h)
    · have hbytes : e.bytes = [] := List.length_eq_zero.mp (by omega)
      cases herr : e.err with
      | none =>
        simp only [runLoop, hbytes, herr]
        simpa using ih w em
      | some re =>
        cases re with
        | eof => simp [runLoop, hbytes, herr]
        | fail => simp [runLoop, hbytes, herr]

theorem runLoop_cons_step (hp : Bool) (clen : ℤ) (e : ReadEv)
    (rest : List ReadEv) (w : List Nat) (em : List ℚ)
    (hwf : e.writeFail = false) (herr : e.err = none)
    (hlen : e.bytes.length > 0) :
    runLoop hp clen (e :: rest) w em =
      runLoop hp clen rest (w ++ e.bytes)
        (if hp = true ∧ 0 < clen ∧ e.throttleOpen = true
         then em ++ [((w ++ e.bytes).length : ℚ) * 100 / (clen : ℚ)]
         else em) := by
  simp [runLoop, hwf, herr, hlen]

theorem runLoop_cons_skip (hp : Bool) (clen : ℤ) (e : ReadEv)
    (rest : List ReadEv) (w : List Nat) (em : List ℚ)
    (herr : e.err = none) (hbytes : e.bytes = []) :
    runLoop hp clen (e :: rest) w em = runLoop hp clen rest w em := by
  simp [runLoop, hbytes, herr]

theorem runLoop_final_100 (clen : ℤ) :
    ∀ (body : List ReadEv) (w : List Nat) (em : List ℚ) (e : ReadEv),
      (∀ x ∈ body.dropLast, x.err = none) →
      (∀ x ∈ body, x.writeFail = false) →
      body.getLast? = some e → e.bytes ≠ [] → e.err = some ReadErr.eof →
      (w.length : ℤ) + ((body.map (fun x => (x.bytes.length : ℤ))).sum) = clen →
      0 < clen →
      (runLoop true clen body w em).emits.getLast? = some 100 := by
  intro body
  induction body with
  | nil => intro w em e _ _ hlast _ _ _ _; simp at hlast
  | cons ev rest ih =>
    intro w em e hdl hwf hlast hbne heof hsum hpos
    cases rest with
    | nil =>
      have he : ev = e := by simpa using hlast
      subst he
      have hwf0 : ev.writeFail = false := hwf ev (by simp)
      have hlen : ev.bytes.length > 0 := by
        cases hb : ev.bytes
        · exact absurd hb hbne
        · simp [hb]
      have hsum1 : (w.length : ℤ) + (ev.bytes.length : ℤ) = clen := by
        simpa using hsum
      have hq : (w.length : ℚ) + (ev.bytes.length : ℚ) = (clen : ℚ) := by
        exact_mod_cast hsum1
      have hc0 : (clen : ℚ) ≠ 0 := Int.cast_ne_zero.mpr (by omega)
      simp [runLoop, hwf0, hlen, heof, hpos]
      rw [hq, mul_comm, mul_div_assoc, div_self hc0, mul_one]
    | cons ev2 rest2 =>
      have herr : ev.err = none := by
        apply hdl ev
        rw [List.dropLast_cons₂]
        simp
      have hwf0 : ev.writeFail = false := hwf ev (by simp)
      have hdl' : ∀ x ∈ (ev2 :: rest2).dropLast, x.err = none := by
        intro x hx
        apply hdl x
        rw [List.dropLast_cons₂]
        simp [hx]
      have hwf' : ∀ x ∈ ev2 :: rest2, x.writeFail = false := by
        intro x hx
        exact hwf x (by simp [hx])
      have hlast' : (ev2 :: rest2).getLast? = some e := by
        rw [List.getLast?_cons_cons] at hlast
        exact hlast
      by_cases hlen : ev.bytes.length > 0
      · have hsum' : ((w ++ ev.bytes).length : ℤ) +
            (((ev2 :: rest2).map (fun x => (x.bytes.length : ℤ))).sum) = clen := by
          simp only [List.map, List.sum_cons] at hsum ⊢
          push_cast [List.length_append]
          linarith
        rw [runLoop_cons_step true clen ev (ev2 :: rest2) w em hwf0 herr hlen]
        exact ih (w ++ ev.bytes) _ e hdl' hwf' hlast' hbne heof hsum' hpos
      · have hbytes : ev.bytes = [] := List.length_eq_zero.mp (by omega)
        have hsum' : (w.length : ℤ) +
            (((ev2 :: rest2).map (fun x => (x.bytes.length : ℤ))).sum) = clen := by
          simp only [List.map, List.sum_cons, hbytes] at hsum ⊢
          simpa using hsum
        rw [runLoop_cons_skip true clen ev (ev2 :: rest2) w em herr hbytes]
        exact ih w em e hdl' hwf' hlast' hbne heof hsum' hpos

theorem commitPhase_spec (env : Env) (dest : String) (hasProgress : Bool)
    (fs : FS) (reqs : List String)
    (hfresh : fsGet fs env.tmpName = none) (hne : env.tmpName ≠ dest) :
    ((commitPhase env dest hasProgress fs reqs).err.isSome →
      (commitPhase env dest hasProgress fs reqs).fs = fs) ∧
    ((commitPhase env dest hasProgress fs reqs).err = none →
      ∃ c, cleanBody env.body = some c ∧
        (commitPhase env dest hasProgress fs reqs).fs = fsSet fs dest c) ∧
    (commitPhase env dest hasProgress fs reqs).reqs = reqs := by
  unfold commitPhase
  cases hct : env.createTempFail with
  | true => simp [hct]
  | false =>
    simp only [hct, Bool.false_eq_true, if_false]
    cases hres : (runLoop hasProgress env.contentLength env.body [] []).res with
    | some le =>
      simp only [hres]
      refine ⟨fun _ => ?_, fun hnone => ?_, trivial⟩
      · exact fsRemove_fsSet_fresh fs env.tmpName _ hfresh
      · simp at hnone
    | none =>
      have hcb : ∃ c, cleanBody env.body = some c := by
        cases hcb : cleanBody env.body with
        | none =>
          have := runLoop_dirty hasProgress env.contentLength env.body [] [] hcb
          rw [hres] at this
          simp at this
        | some c => exact ⟨c, rfl⟩
      rcases hcb with ⟨c, hcb⟩
      have hcontent := (runLoop_clean hasProgress env.contentLength env.body
        [] [] c hcb).1
      simp only [List.nil_append] at hcontent
      simp only [hres]
      cases hsy : env.syncFail with
      | true =>
        simp only [hsy, if_true]
        exact ⟨fun _ => fsRemove_fsSet_fresh fs env.tmpName _ hfresh,
          fun hnone => by simp at hnone, trivial⟩
      | false =>
        simp only [hsy, Bool.false_eq_true, if_false]
        cases hcl : env.closeFail with
        | true =>
          simp only [hcl, if_true]
          exact ⟨fun _ => fsRemove_fsSet_fresh fs env.tmpName _ hfresh,
            fun hnone => by simp at hnone, trivial⟩
        | false =>
          simp only [hcl, Bool.false_eq_true, if_false]
          cases hrn : env.renameFail with
          | true =>
            simp only [hrn, if_true]
            exact ⟨fun _ => fsRemove_fsSet_fresh fs env.tmpName _ hfresh,
              fun hnone => by simp at hnone, trivial⟩
          | false =>
            simp only [hrn, Bool.false_eq_true, if_false]
            refine ⟨fun hs => by simp at hs, fun _ => ⟨c, hcb, ?_⟩, trivial⟩
            rw [hcontent]
            exact commit_fs_eq fs env.tmpName dest c hfresh hne

theorem commitPhase_emits (env : Env) (dest : String) (hasProgress : Bool)
    (fs : FS) (reqs : List String) (hct : env.createTempFail = false) :
    (commitPhase env dest hasProgress fs reqs).emits =
      (runLoop hasProgress env.contentLength env.body [] []).emits := by
  unfold commitPhase
  simp only [hct, Bool.false_eq_true, if_false]
  cases hres : (runLoop hasProgress env.contentLength env.body [] []).res with
  | some le => simp only [hres]
  | none =>
    simp only [hres]
    cases env.syncFail <;> cases env.closeFail <;> cases env.renameFail <;> simp

theorem commitPhase_emits_nil (env : Env) (dest : String) (hasProgress : Bool)
    (fs : FS) (reqs : List String)
    (h : hasProgress = false ∨ env.contentLength ≤ 0) :
    (commitPhase env dest hasProgress fs reqs).emits = [] := by
  unfold commitPhase
  have hrl := runLoop_emits_const hasProgress env.contentLength h env.body [] []
  cases hct : env.createTempFail with
  | true => simp [hct]
  | false =>
    simp only [hct, Bool.false_eq_true, if_false]
    cases hres : (runLoop hasProgress env.contentLength env.body [] []).res with
    | some le => simp only [hres, hrl]
    | none =>
      simp only [hres]
      cases env.syncFail <;> cases env.closeFail <;> cases env.renameFail <;>
        simp [hrl]

theorem pdfDestOf_ne_empty (dest : String) : pdfDestOf dest ≠ "" := by
  intro h
  have hd := congrArg String.data h
  simp only [pdfDestOf] at hd
  have hlen := congrArg List.length hd
  rw [List.length_append] at hlen
  have h4 : pdfSuffix.data.length = 4 := by decide
  simp [h4] at hlen

theorem pdfDestOf_ne_self (dest : String) : pdfDestOf dest ≠ dest := by
  intro h
  have hd := congrArg String.data h
  simp only [pdfDestOf] at hd
  have hlen := congrArg List.length hd
  rw [List.length_append] at hlen
  have h4 : pdfSuffix.data.length = 4 := by decide
  have h5 : epubSuffix.data.length = 5 := by decide
  by_cases hsuf : epubSuffix.data.isSuffixOf dest.data
  · have hle : epubSuffix.data.length ≤ dest.data.length := by
      have h1 : epubSuffix.data <:+ dest.data := by
        simpa [List.isSuffixOf] using hsuf
      exact h1.length_le
    rw [h5] at hle
    have htl : (trimSuffix dest epubSuffix).data.length =
        dest.data.length - 5 := by
      simp [trimSuffix, hsuf, List.length_take, h5]
    omega
  · have htl : (trimSuffix dest epubSuffix).data.length = dest.data.length := by
      simp [trimSuffix, hsuf]
    omega

theorem downloadPDF_spec (jwt slug dest : String) (env : Env)
    (hasProgress : Bool) (fs : FS)
    (hfresh : fsGet fs env.tmpName = none) (hne : env.tmpName ≠ dest) :
    ((downloadPDF jwt slug dest env hasProgress fs).err.isSome →
      (downloadPDF jwt slug dest env hasProgress fs).fs = fs) ∧
    ((downloadPDF jwt slug dest env hasProgress fs).err = none →
      ∃ c, cleanBody env.body = some c ∧
        (downloadPDF jwt slug dest env hasProgress fs).fs = fsSet fs dest c) ∧
    (jwt ≠ "" → slug ≠ "" → dest ≠ "" →
      (downloadPDF jwt slug dest env hasProgress fs).reqs =
        [pdfEndpoint slug]) := by
  unfold downloadPDF
  by_cases hj : jwt = ""
  · rw [if_pos hj]
    exact ⟨fun _ => rfl, fun h => by simp at h, fun hj2 _ _ => absurd hj hj2⟩
  rw [if_neg hj]
  by_cases hs : slug = ""
  · rw [if_pos hs]
    exact ⟨fun _ => rfl, fun h => by simp at h, fun _ hs2 _ => absurd hs hs2⟩
  rw [if_neg hs]
  by_cases hd : dest = ""
  · rw [if_pos hd]
    exact ⟨fun _ => rfl, fun h => by simp at h, fun _ _ hd2 => absurd hd hd2⟩
  rw [if_neg hd]
  dsimp only
  cases hnet : env.netErr with
  | true =>
    rw [if_pos rfl]
    exact ⟨fun _ => rfl, fun h => by simp at h, fun _ _ _ => rfl⟩
  | false =>
    rw [if_neg Bool.false_ne_true]
    by_cases hst : env.status = 200
    · rw [if_pos hst]
      by_cases hct : strStartsWith env.contentType pdfCT
      · rw [if_neg (by simpa using hct)]
        cases hmk : env.mkdirFail with
        | true =>
          rw [if_pos rfl]
          exact ⟨fun _ => rfl, fun h => by simp at h, fun _ _ _ => rfl⟩
        | false =>
          rw [if_neg Bool.false_ne_true]
          have hspec := commitPhase_spec env dest hasProgress fs
            [pdfEndpoint slug] hfresh hne
          exact ⟨hspec.1, hspec.2.1, fun _ _ _ => hspec.2.2⟩
      · rw [if_pos (by simpa using hct)]
        exact ⟨fun _ => rfl, fun h => by simp at h, fun _ _ _ => rfl⟩
    · rw [if_neg hst]
      by_cases h404 : env.status = 404
      · rw [if_pos h404]
        exact ⟨fun _ => rfl, fun h => by simp at h, fun _ _ _ => rfl⟩
      · rw [if_neg h404]
        exact ⟨fun _ => rfl, fun h => by simp at h, fun _ _ _ => rfl⟩

theorem downloadPDF_emits_nil (jwt slug dest : String) (env : Env)
    (hasProgress : Bool) (fs : FS)
    (h : hasProgress = false ∨ env.contentLength ≤ 0) :
    (downloadPDF jwt slug dest env hasProgress fs).emits = [] := by
  unfold downloadPDF
  by_cases hj : jwt = ""
  · rw [if_pos hj]
  rw [if_neg hj]
  by_cases hs : slug = ""
  · rw [if_pos hs]
  rw [if_neg hs]
  by_cases hd : dest = ""
  · rw [if_pos hd]
  rw [if_neg hd]
  dsimp only
  cases hnet : env.netErr with
  | true => rw [if_pos rfl]
  | false =>
    rw [if_neg Bool.false_ne_true]
    by_cases hst : env.status = 200
    · rw [if_pos hst]
      by_cases hct : strStartsWith env.contentType pdfCT
      · rw [if_neg (by simpa using hct)]
        cases hmk : env.mkdirFail with
        | true => rw [if_pos rfl]
        | false =>
          rw [if_neg Bool.false_ne_true]
          exact commitPhase_emits_nil env dest hasProgress fs
            [pdfEndpoint slug] h
      · rw [if_pos (by simpa using hct)]
    · rw [if_neg hst]
      by_cases h404 : env.status = 404
      · rw [if_pos h404]
      · rw [if_neg h404]

/-- C1: for every invocation of `DownloadEPUB` — over all response
environments, body truncations and filesystem failures, with the temp names
fresh as `os.CreateTemp` guarantees — the destination is afterwards either
untouched or a complete file: on any error the whole filesystem (hence the
destination and the removed temp file) is exactly as before the call; on
success the destination (or, after the 404 fallback, the derived PDF path)
holds exactly the fully consumed body, which requires the body stream to
have ended in a clean `io.EOF`; no temp file survives. -/
theorem download_atomicity (jwt slug dest : String) (envE envP : Env)
    (hasProgress : Bool) (fs : FS)
    (hE : fsGet fs envE.tmpName = none) (hEd : envE.tmpName ≠ dest)
    (hEp : envE.tmpName ≠ pdfDestOf dest)
    (hP : fsGet fs envP.tmpName = none) (hPd : envP.tmpName ≠ dest)
    (hPp : envP.tmpName ≠ pdfDestOf dest) :
    ((downloadEPUB jwt slug dest envE envP hasProgress fs).err.isSome →
      (downloadEPUB jwt slug dest envE envP hasProgress fs).fs = fs) ∧
    ((downloadEPUB jwt slug dest envE envP hasProgress fs).err = none →
      (∃ c, cleanBody envE.body = some c ∧
        (downloadEPUB jwt slug dest envE envP hasProgress fs).fs =
          fsSet fs dest c) ∨
      (∃ c, cleanBody envP.body = some c ∧
        (downloadEPUB jwt slug dest envE envP hasProgress fs).fs =
          fsSet fs (pdfDestOf dest) c)) ∧
    fsGet (downloadEPUB jwt slug dest envE envP hasProgress fs).fs
      envE.tmpName = none ∧
    fsGet (downloadEPUB jwt slug dest envE envP hasProgress fs).fs
      envP.tmpName = none ∧
    (fsGet (downloadEPUB jwt slug dest envE envP hasProgress fs).fs dest =
        fsGet fs dest ∨
      ∃ c, cleanBody envE.body = some c ∧
        fsGet (downloadEPUB jwt slug dest envE envP hasProgress fs).fs dest =
          some c) := by
  unfold downloadEPUB
  by_cases hj : jwt = ""
  · rw [if_pos hj]
    exact ⟨fun _ => rfl, fun h => by simp at h, hE, hP, Or.inl rfl⟩
  rw [if_neg hj]
  by_cases hs : slug = ""
  · rw [if_pos hs]
    exact ⟨fun _ => rfl, fun h => by simp at h, hE, hP, Or.inl rfl⟩
  rw [if_neg hs]
  by_cases hd : dest = ""
  · rw [if_pos hd]
    exact ⟨fun _ => rfl, fun h => by simp at h, hE, hP, Or.inl rfl⟩
  rw [if_neg hd]
  dsimp only
  cases hnet : envE.netErr with
  | true =>
    rw [if_pos rfl]
    exact ⟨fun _ => rfl, fun h => by simp at h, hE, hP, Or.inl rfl⟩
  | false =>
    rw [if_neg Bool.false_ne_true]
    by_cases hst : envE.status = 200
    · rw [if_pos hst]
      by_cases hct : strStartsWith envE.contentType epubCT
      · rw [if_neg (by simpa using hct)]
        cases hmk : envE.mkdirFail with
        | true =>
          rw [if_pos rfl]
          exact ⟨fun _ => rfl, fun h => by simp at h, hE, hP, Or.inl rfl⟩
        | false =>
          rw [if_neg Bool.false_ne_true]
          have hspec := commitPhase_spec envE dest hasProgress fs
            [epubEndpoint slug] hE hEd
          cases herr : (commitPhase envE dest hasProgress fs
              [epubEndpoint slug]).err with
          | some e =>
            have hfs := hspec.1 (by rw [herr]; rfl)
            refine ⟨fun _ => hfs, fun h => by simp at h,
              ?_, ?_, ?_⟩
            · rw [hfs]; exact hE
            · rw [hfs]; exact hP
            · rw [hfs]; exact Or.inl rfl
          | none =>
            obtain ⟨c, hcb, hfs⟩ := hspec.2.1 herr
            refine ⟨fun hsome => by simp at hsome,
              fun _ => Or.inl ⟨c, hcb, hfs⟩, ?_, ?_, ?_⟩
            · rw [hfs, fsGet_fsSet_ne fs dest envE.tmpName c hEd]; exact hE
            · rw [hfs, fsGet_fsSet_ne fs dest envP.tmpName c hPd]; exact hP
            · exact Or.inr ⟨c, hcb, by rw [hfs, fsGet_fsSet_self]⟩
      · rw [if_pos (by simpa using hct)]
        exact ⟨fun _ => rfl, fun h => by simp at h, hE, hP, Or.inl rfl⟩
    · rw [if_neg hst]
      by_cases h404 : envE.status = 404
      · rw [if_pos h404]
        have hpdf := downloadPDF_spec jwt slug (pdfDestOf dest) envP
          hasProgress fs hP hPp
        cases hperr : (downloadPDF jwt slug (pdfDestOf dest) envP
            hasProgress fs).err with
        | some e =>
          have hfs := hpdf.1 (by rw [hperr]; rfl)
          refine ⟨fun _ => hfs, fun h => by simp at h, ?_, ?_, ?_⟩
          · rw [hfs]; exact hE
          · rw [hfs]; exact hP
          · rw [hfs]; exact Or.inl rfl
        | none =>
          obtain ⟨c, hcb, hfs⟩ := hpdf.2.1 hperr
          refine ⟨fun hsome => by simp at hsome,
            fun _ => Or.inr ⟨c, hcb, hfs⟩, ?_, ?_, ?_⟩
          · rw [hfs, fsGet_fsSet_ne fs (pdfDestOf dest) envE.tmpName c hEp]
            exact hE
          · rw [hfs, fsGet_fsSet_ne fs (pdfDestOf dest) envP.tmpName c hPp]
            exact hP
          · left
            rw [hfs, fsGet_fsSet_ne fs (pdfDestOf dest) dest c
              (Ne.symm (pdfDestOf_ne_self dest))]
      · rw [if_neg h404]
        exact ⟨fun _ => rfl, fun h => by simp at h, hE, hP, Or.inl rfl⟩

theorem download_atomicity_witness :
    fsGet [] okEpubEnv.tmpName = none ∧ okEpubEnv.tmpName ≠ destFix ∧
    okEpubEnv.tmpName ≠ pdfDestOf destFix ∧
    fsGet [] notFoundEnv.tmpName = none ∧ notFoundEnv.tmpName ≠ destFix ∧
    notFoundEnv.tmpName ≠ pdfDestOf destFix ∧
    ((downloadEPUB jwtFix slugFix destFix okEpubEnv notFoundEnv true []).err =
        none →
      (∃ c, cleanBody okEpubEnv.body = some c ∧
        (downloadEPUB jwtFix slugFix destFix okEpubEnv notFoundEnv
          true []).fs = fsSet [] destFix c) ∨
      (∃ c, cleanBody notFoundEnv.body = some c ∧
        (downloadEPUB jwtFix slugFix destFix okEpubEnv notFoundEnv
          true []).fs = fsSet [] (pdfDestOf destFix) c)) := by
  refine ⟨by decide, by decide, by decide, by decide, by decide, by decide, ?_⟩
  exact (download_atomicity jwtFix slugFix destFix okEpubEnv notFoundEnv
    true [] (by decide) (by decide) (by decide) (by decide) (by decide)
    (by decide)).2.1

/-- C5: when the primary (EPUB) candidate answers 404, exactly one fallback
request is made, to the PDF endpoint, targeting the derived
`TrimSuffix(dest, ".epub") + ".pdf"` path; if the fallback succeeds the fetch
commits the fallback content there and returns no error; if the fallback
fails too, a single combined error is returned that records the EPUB
not-found together with the PDF attempt's own error, and the filesystem is
untouched. -/
theorem download_fallback (jwt slug dest : String) (envE envP : Env)
    (hasProgress : Bool) (fs : FS)
    (hj : jwt ≠ "") (hs : slug ≠ "") (hd : dest ≠ "")
    (hnet : envE.netErr = false) (h404 : envE.status = 404)
    (hP : fsGet fs envP.tmpName = none)
    (hPp : envP.tmpName ≠ pdfDestOf dest) :
    (downloadEPUB jwt slug dest envE envP hasProgress fs).reqs =
      [epubEndpoint slug, pdfEndpoint slug] ∧
    ((downloadPDF jwt slug (pdfDestOf dest) envP hasProgress fs).err = none →
      (downloadEPUB jwt slug dest envE envP hasProgress fs).err = none ∧
      ∃ c, cleanBody envP.body = some c ∧
        fsGet (downloadEPUB jwt slug dest envE envP hasProgress fs).fs
          (pdfDestOf dest) = some c) ∧
    (∀ e, (downloadPDF jwt slug (pdfDestOf dest) envP hasProgress fs).err =
        some e →
      (downloadEPUB jwt slug dest envE envP hasProgress fs).err =
        some (DlErr.epubPdfNotFound e) ∧
      (downloadEPUB jwt slug dest envE envP hasProgress fs).fs = fs) := by
  have hpdf := downloadPDF_spec jwt slug (pdfDestOf dest) envP hasProgress fs
    hP hPp
  have hreqs := hpdf.2.2 hj hs (pdfDestOf_ne_empty dest)
  unfold downloadEPUB
  rw [if_neg hj, if_neg hs, if_neg hd]
  dsimp only
  rw [if_neg (by rw [hnet]; exact Bool.false_ne_true),
    if_neg (by rw [h404]; decide), if_pos h404]
  cases hperr : (downloadPDF jwt slug (pdfDestOf dest) envP
      hasProgress fs).err with
  | some e =>
    refine ⟨by rw [hreqs], fun h => by simp at h, ?_⟩
    intro e2 he2
    have he : e = e2 := Option.some.inj he2
    subst he
    exact ⟨rfl, hpdf.1 (by rw [hperr]; rfl)⟩
  | none =>
    obtain ⟨c, hcb, hfs⟩ := hpdf.2.1 hperr
    refine ⟨by rw [hreqs], fun _ => ⟨rfl, c, hcb, ?_⟩, ?_⟩
    · rw [hfs, fsGet_fsSet_self]
    · intro e2 he2
      simp at he2

theorem download_fallback_witness :
    (downloadEPUB jwtFix slugFix destFix notFoundEnv okPdfEnv true []).reqs =
      [epubEndpoint slugFix, pdfEndpoint slugFix] ∧
    ((downloadPDF jwtFix slugFix (pdfDestOf destFix) okPdfEnv true []).err =
        none →
      (downloadEPUB jwtFix slugFix destFix notFoundEnv okPdfEnv
        true []).err = none ∧
      ∃ c, cleanBody okPdfEnv.body = some c ∧
        fsGet (downloadEPUB jwtFix slugFix destFix notFoundEnv okPdfEnv
          true []).fs (pdfDestOf destFix) = some c) := by
  have h := download_fallback jwtFix slugFix destFix notFoundEnv okPdfEnv
    true [] (by decide) (by decide) (by decide) (by decide) (by decide)
    (by decide) (by decide)
  exact ⟨h.1, h.2.1⟩

theorem downloadEPUB_emits_nil (jwt slug dest : String) (envE envP : Env)
    (hasProgress : Bool) (fs : FS)
    (h : hasProgress = false ∨
      (envE.contentLength ≤ 0 ∧ envP.contentLength ≤ 0)) :
    (downloadEPUB jwt slug dest envE envP hasProgress fs).emits = [] := by
  have hE : hasProgress = false ∨ envE.contentLength ≤ 0 := h.imp id And.left
  have hPl : hasProgress = false ∨ envP.contentLength ≤ 0 := h.imp id And.right
  unfold downloadEPUB
  by_cases hj : jwt = ""
  · rw [if_pos hj]
  rw [if_neg hj]
  by_cases hs : slug = ""
  · rw [if_pos hs]
  rw [if_neg hs]
  by_cases hd : dest = ""
  · rw [if_pos hd]
  rw [if_neg hd]
  dsimp only
  cases hnet : envE.netErr with
  | true => rw [if_pos rfl]
  | false =>
    rw [if_neg Bool.false_ne_true]
    by_cases hst : envE.status = 200
    · rw [if_pos hst]
      by_cases hct : strStartsWith envE.contentType epubCT
      · rw [if_neg (by simpa using hct)]
        cases hmk : envE.mkdirFail with
        | true => rw [if_pos rfl]
        | false =>
          rw [if_neg Bool.false_ne_true]
          exact commitPhase_emits_nil envE dest hasProgress fs
            [epubEndpoint slug] hE
      · rw [if_pos (by simpa using hct)]
    · rw [if_neg hst]
      by_cases h404 : envE.status = 404
      · rw [if_pos h404]
        have hpe := downloadPDF_emits_nil jwt slug (pdfDestOf dest) envP
          hasProgress fs hPl
        cases hperr : (downloadPDF jwt slug (pdfDestOf dest) envP
            hasProgress fs).err with
        | some e => exact hpe
        | none => exact hpe
      · rw [if_neg h404]

theorem downloadEPUB_success_last_emit (jwt slug dest : String)
    (envE envP : Env) (fs : FS) (e : ReadEv)
    (hj : jwt ≠ "") (hs : slug ≠ "") (hd : dest ≠ "")
    (hnet : envE.netErr = false) (hst : envE.status = 200)
    (hct : strStartsWith envE.contentType epubCT = true)
    (hmk : envE.mkdirFail = false) (hctf : envE.createTempFail = false)
    (hdl : ∀ x ∈ envE.body.dropLast, x.err = none)
    (hwf : ∀ x ∈ envE.body, x.writeFail = false)
    (hlast : envE.body.getLast? = some e) (hbne : e.bytes ≠ [])
    (heof : e.err = some ReadErr.eof)
    (hsum : ((envE.body.map (fun x => (x.bytes.length : ℤ))).sum) =
      envE.contentLength)
    (hpos : 0 < envE.contentLength) :
    (downloadEPUB jwt slug dest envE envP true fs).emits.getLast? =
      some 100 := by
  unfold downloadEPUB
  rw [if_neg hj, if_neg hs, if_neg hd]
  dsimp only
  rw [if_neg (by rw [hnet]; exact Bool.false_ne_true), if_pos hst,
    if_neg (by simpa using hct),
    if_neg (by rw [hmk]; exact Bool.false_ne_true)]
  rw [commitPhase_emits envE dest true fs [epubEndpoint slug] hctf]
  exact runLoop_final_100 envE.contentLength envE.body [] [] e hdl hwf hlast
    hbne heof (by simpa using hsum) hpos

/-- C6 (counterexample): a complete, successful 1-byte download whose body
reader returns the data chunk with `er == nil` (throttle not yet open) and
reports `io.EOF` on a separate, empty read emits no progress event at all —
the destination file is committed, yet there is no final 100% emission,
because the emission branch only runs when `nr > 0`. -/
theorem final_emit_counterexample :
    (downloadEPUB jwtFix slugFix destFix splitEofEnv notFoundEnv true []).err =
      none ∧
    fsGet (downloadEPUB jwtFix slugFix destFix splitEofEnv notFoundEnv
      true []).fs destFix = some [7] ∧
    (downloadEPUB jwtFix slugFix destFix splitEofEnv notFoundEnv
      true []).emits = [] := by
  exact ⟨rfl, rfl, rfl⟩

/-- C6 (amended): with a nil progress callback, or when `Content-Length` is
absent (`contentLength ≤ 0`, covering Go's `-1` for unknown) for the EPUB
response and for any PDF fallback response, no progress events are emitted;
a successful download whose body reader delivers the final bytes together
with `io.EOF` ends with a final emission of exactly 100% — but that final
emission is only guaranteed in that case: when EOF arrives on a separate
empty read, a successful download may emit nothing (see the
counterexample). -/
theorem progress_reporting_amended (jwt slug dest : String) (envE envP : Env)
    (hasProgress : Bool) (fs : FS) (e : ReadEv) :
    ((downloadEPUB jwt slug dest envE envP false fs).emits = []) ∧
    (envE.contentLength ≤ 0 → envP.contentLength ≤ 0 →
      (downloadEPUB jwt slug dest envE envP hasProgress fs).emits = []) ∧
    (jwt ≠ "" → slug ≠ "" → dest ≠ "" →
      envE.netErr = false → envE.status = 200 →
      strStartsWith envE.contentType epubCT = true →
      envE.mkdirFail = false → envE.createTempFail = false →
      (∀ x ∈ envE.body.dropLast, x.err = none) →
      (∀ x ∈ envE.body, x.writeFail = false) →
      envE.body.getLast? = some e → e.bytes ≠ [] →
      e.err = some ReadErr.eof →
      ((envE.body.map (fun x => (x.bytes.length : ℤ))).sum) =
        envE.contentLength →
      0 < envE.contentLength →
      (downloadEPUB jwt slug dest envE envP true fs).emits ≠ [] ∧
      (downloadEPUB jwt slug dest envE envP true fs).emits.getLast? =
        some 100) := by
  refine ⟨downloadEPUB_emits_nil jwt slug dest envE envP false fs (Or.inl rfl),
    fun h1 h2 => downloadEPUB_emits_nil jwt slug dest envE envP hasProgress fs
      (Or.inr ⟨h1, h2⟩),
    fun hj hs hd hnet hst hct hmk hctf hdl hwf hlast hbne heof hsum hpos => ?_⟩
  have h100 := downloadEPUB_success_last_emit jwt slug dest envE envP fs e
    hj hs hd hnet hst hct hmk hctf hdl hwf hlast hbne heof hsum hpos
  refine ⟨fun hemp => ?_, h100⟩
  rw [hemp] at h100
  simp at h100

theorem progress_reporting_amended_witness :
    (downloadEPUB jwtFix slugFix destFix okEpubEnv notFoundEnv true []).emits ≠
      [] ∧
    (downloadEPUB jwtFix slugFix destFix okEpubEnv notFoundEnv
      true []).emits.getLast? = some 100 := by
  exact (progress_reporting_amended jwtFix slugFix destFix okEpubEnv
    notFoundEnv true [] ⟨[1, 2], some ReadErr.eof, false, true⟩).2.2
    (by decide) (by decide) (by decide) (by decide) (by decide) (by decide)
    (by decide) (by decide) (by decide) (by decide) (by decide) (by decide)
    (by decide) (by decide) (by decide)

/-- C10: for both `DownloadEPUB` and `DownloadPDF`, an empty JWT token, book
slug or destination path makes the call return a non-nil error immediately:
no HTTP request is issued, the filesystem is untouched, and the progress
callback is never invoked. -/
theorem download_validation (jwt slug dest : String) (envE envP env : Env)
    (hasProgress : Bool) (fs : FS)
    (h : jwt = "" ∨ slug = "" ∨ dest = "") :
    ((downloadEPUB jwt slug dest envE envP hasProgress fs).err.isSome = true ∧
      (downloadEPUB jwt slug dest envE envP hasProgress fs).fs = fs ∧
      (downloadEPUB jwt slug dest envE envP hasProgress fs).emits = [] ∧
      (downloadEPUB jwt slug dest envE envP hasProgress fs).reqs = []) ∧
    ((downloadPDF jwt slug dest env hasProgress fs).err.isSome = true ∧
      (downloadPDF jwt slug dest env hasProgress fs).fs = fs ∧
      (downloadPDF jwt slug dest env hasProgress fs).emits = [] ∧
      (downloadPDF jwt slug dest env hasProgress fs).reqs = []) := by
  have hepub : ∃ e, downloadEPUB jwt slug dest envE envP hasProgress fs =
      ⟨some e, fs, [], []⟩ := by
    unfold downloadEPUB
    by_cases hj : jwt = ""
    · exact ⟨DlErr.emptyJwt, by rw [if_pos hj]⟩
    rw [if_neg hj]
    by_cases hs : slug = ""
    · exact ⟨DlErr.emptySlug, by rw [if_pos hs]⟩
    rw [if_neg hs]
    have hd : dest = "" := by tauto
    exact ⟨DlErr.emptyDest, by rw [if_pos hd]⟩
  have hpdf : ∃ e, downloadPDF jwt slug dest env hasProgress fs =
      ⟨some e, fs, [], []⟩ := by
    unfold downloadPDF
    by_cases hj : jwt = ""
    · exact ⟨DlErr.emptyJwt, by rw [if_pos hj]⟩
    rw [if_neg hj]
    by_cases hs : slug = ""
    · exact ⟨DlErr.emptySlug, by rw [if_pos hs]⟩
    rw [if_neg hs]
    have hd : dest = "" := by tauto
    exact ⟨DlErr.emptyDest, by rw [if_pos hd]⟩
  obtain ⟨e1, he1⟩ := hepub
  obtain ⟨e2, he2⟩ := hpdf
  rw [he1, he2]
  exact ⟨⟨rfl, rfl, rfl, rfl⟩, rfl, rfl, rfl, rfl⟩

theorem download_validation_witness :
    ((downloadEPUB emptyStr slugFix destFix okEpubEnv notFoundEnv true []).err.isSome =
        true ∧
      (downloadEPUB emptyStr slugFix destFix okEpubEnv notFoundEnv true []).fs = [] ∧
      (downloadEPUB emptyStr slugFix destFix okEpubEnv notFoundEnv
        true []).emits = [] ∧
      (downloadEPUB emptyStr slugFix destFix okEpubEnv notFoundEnv
        true []).reqs = []) ∧
    ((downloadPDF emptyStr slugFix destFix okPdfEnv true []).err.isSome = true ∧
      (downloadPDF emptyStr slugFix destFix okPdfEnv true []).fs = [] ∧
      (downloadPDF emptyStr slugFix destFix okPdfEnv true []).emits = [] ∧
      (downloadPDF emptyStr slugFix destFix okPdfEnv true []).reqs = []) := by
  exact download_validation emptyStr slugFix destFix okEpubEnv notFoundEnv
    okPdfEnv true [] (Or.inl rfl)

theorem clientDoAux_fail_spec (p : RetryPolicy) (N : Nat)
    (h200 : p.shouldRetry 200 = false) :
    ∀ f a, a + f = p.maxRetries + 1 → a ≤ p.maxRetries → a ≤ N →
      clientDoAux p (failNThenOk N) a f =
        if N ≤ p.maxRetries then ⟨Except.ok ⟨200⟩, N + 1⟩
        else ⟨Except.error (p.maxRetries + 1), p.maxRetries + 1⟩ := by
  intro f
  induction f with
  | zero => intro a h1 h2 _; omega
  | succ f ih =>
    intro a h1 h2 h3
    by_cases hN : a < N
    · have htr : failNThenOk N a = Outcome.netErr := by
        simp [failNThenOk, hN]
      by_cases hmr : a < p.maxRetries
      · have := ih (a + 1) (by omega) (by omega) (by omega)
        simp only [clientDoAux, htr, if_pos hmr]
        exact this
      · have haN : a = p.maxRetries := by omega
        have hnle : ¬ N ≤ p.maxRetries := by omega
        subst haN
        simp [clientDoAux, htr, hmr, hnle]
    · have haN : a = N := by omega
      have hle : N ≤ p.maxRetries := by omega
      rw [if_pos hle, ← haN]
      have htr : failNThenOk a a = Outcome.resp ⟨200⟩ := by
        simp [failNThenOk]
      simp [clientDoAux, htr, h200]

theorem doWithRetryAux_fail_spec (N : Nat) (maxRetries : Nat) :
    ∀ f a, a + f = maxRetries + 1 → a ≤ maxRetries → a ≤ N →
      doWithRetryAux (failNThenOk N) maxRetries a f =
        if N ≤ maxRetries then ⟨some ⟨200⟩, none, N + 1⟩
        else ⟨none, some (), maxRetries + 1⟩ := by
  intro f
  induction f with
  | zero => intro a h1 h2 _; omega
  | succ f ih =>
    intro a h1 h2 h3
    by_cases hN : a < N
    · have htr : failNThenOk N a = Outcome.netErr := by
        simp [failNThenOk, hN]
      by_cases hmr : a = maxRetries
      · have hnle : ¬ N ≤ maxRetries := by omega
        subst hmr
        simp [doWithRetryAux, htr, hnle]
      · have := ih (a + 1) (by omega) (by omega) (by omega)
        simp only [doWithRetryAux, htr, if_neg hmr]
        exact this
    · have haN : a = N := by omega
      have hle : N ≤ maxRetries := by omega
      rw [if_pos hle, ← haN]
      have htr : failNThenOk a a = Outcome.resp ⟨200⟩ := by
        simp [failNThenOk]
      simp [doWithRetryAux, htr]

/-- C2 (counterexample): a mock transport that fails exactly once (a 503
response) and then succeeds, with `maxRetries = 3`, does not make
`doWithRetry` succeed: because the 503 attempt's Go error is `nil`,
`!isRetryableError(err)` breaks the loop after a single attempt and
`doWithRetry` returns `(nil, nil)` — neither the success response nor an
error, and only 1 attempt instead of a retry, although `N = 1 ≤ 3`. -/
theorem retry_5xx_counterexample :
    (1 : Nat) ≤ 3 ∧
      doWithRetry oneStatus503 3 = ⟨none, none, 1⟩ := by
  exact ⟨by decide, rfl⟩

/-- C2 (amended): for the `client` package's `Client.do`, a transport failing
exactly `N` times at the network level then succeeding makes `do` succeed
iff `N ≤ maxRetries`, and otherwise `do` makes exactly `maxRetries + 1`
attempts and returns the last error wrapped with the attempt count.  For
`internal/client/client.go`'s `doWithRetry` the same success criterion holds
for network-level failures, but the exhausted-retries error is returned
unwrapped (here: the bare `some ()`); a 5xx response without a network error
instead ends `doWithRetry` after that attempt with `nil` response and `nil`
error (see the counterexample). -/
theorem retry_execute_amended (p : RetryPolicy) (mr N : Nat)
    (h200 : p.shouldRetry 200 = false) :
    (N ≤ p.maxRetries →
      clientDo p (failNThenOk N) = ⟨Except.ok ⟨200⟩, N + 1⟩) ∧
    (p.maxRetries < N →
      clientDo p (failNThenOk N) =
        ⟨Except.error (p.maxRetries + 1), p.maxRetries + 1⟩) ∧
    (N ≤ mr → doWithRetry (failNThenOk N) mr = ⟨some ⟨200⟩, none, N + 1⟩) ∧
    (mr < N → doWithRetry (failNThenOk N) mr = ⟨none, some (), mr + 1⟩) := by
  have hc := clientDoAux_fail_spec p N h200 (p.maxRetries + 1) 0 (by omega)
    (by omega) (by omega)
  have hd := doWithRetryAux_fail_spec N mr (mr + 1) 0 (by omega) (by omega)
    (by omega)
  refine ⟨fun h => ?_, fun h => ?_, fun h => ?_, fun h => ?_⟩
  · rw [clientDo, hc, if_pos h]
  · rw [clientDo, hc, if_neg (by omega)]
  · rw [doWithRetry, hd, if_pos h]
  · rw [doWithRetry, hd, if_neg (by omega)]

theorem retry_execute_amended_witness :
    defaultRetryPolicy.shouldRetry 200 = false ∧
    clientDo defaultRetryPolicy (failNThenOk 2) = ⟨Except.ok ⟨200⟩, 3⟩ ∧
    clientDo defaultRetryPolicy (failNThenOk 5) = ⟨Except.error 4, 4⟩ ∧
    doWithRetry (failNThenOk 2) 3 = ⟨some ⟨200⟩, none, 3⟩ ∧
    doWithRetry (failNThenOk 5) 3 = ⟨none, some (), 4⟩ := by
  have h := retry_execute_amended defaultRetryPolicy 3 2 (by decide)
  have h5 := retry_execute_amended defaultRetryPolicy 3 5 (by decide)
  exact ⟨by decide, h.1 (by decide), h5.2.1 (by decide), h.2.2.1 (by decide),
    h5.2.2.2 (by decide)⟩

/-- C3 (counterexample): with the valid policy `MinDelay = MaxDelay = 8`
(`minBackoff ≤ maxBackoff`, both positive), attempt 0 and the legitimate
jitter draw `rand.Int63n(6) = 5`, `calculateBackoff` of
`internal/client/client.go` returns `8/2 + 5 = 9 > 8 = MaxDelay`: the
returned backoff including jitter exceeds `maxBackoff`. -/
theorem backoff_jitter_counterexample :
    (0 : ℤ) < smallGoPolicy.minDelay ∧
      smallGoPolicy.minDelay ≤ smallGoPolicy.maxDelay ∧
      (0 : ℤ) ≤ 5 ∧ (5 : ℤ) < goJitterBound smallGoPolicy 0 ∧
      smallGoPolicy.maxDelay < calculateBackoff smallGoPolicy 0 5 := by
  decide

/-- C3 (amended): the `client` package's `CalculateBackoff` clamps after the
jitter, so its result is ≤ `maxBackoff` for every attempt and jitter draw;
the pre-clamp, pre-jitter backoff (whose expected value it is, the jitter
factor `1/2 + u` having mean 1 over `u ∈ [0,1)`) is non-decreasing in the
attempt index in both implementations; `internal/client/client.go`'s
`calculateBackoff` instead applies jitter after the clamp and is only
bounded by `maxDelay/2 + 3*maxDelay/4`, which can exceed `maxDelay` by up to
25% (see the counterexample). -/
theorem backoff_amended (p : RetryPolicy) (gp : GoRetryPolicy) (attempt : Nat)
    (u : ℚ) (r : ℤ)
    (hpart : 0 ≤ p.initialBackoff) (hgo : 0 ≤ gp.minDelay)
    (hr : r < goJitterBound gp attempt) :
    partCalculateBackoff p attempt u ≤ p.maxBackoff ∧
    partRawBackoff p attempt ≤ partRawBackoff p (attempt + 1) ∧
    goRawBackoff gp attempt ≤ goRawBackoff gp (attempt + 1) ∧
    calculateBackoff gp attempt r <
      gp.maxDelay / 2 + 3 * gp.maxDelay / 4 := by
  have hclamp : clampedBackoff gp attempt ≤ gp.maxDelay := by
    unfold clampedBackoff
    split_ifs with h
    · exact le_refl _
    · exact le_of_not_lt h
  refine ⟨?_, ?_, ?_, ?_⟩
  · unfold partCalculateBackoff
    split_ifs with h
    · exact le_refl _
    · exact le_of_not_lt h
  · unfold partRawBackoff
    have h2 : (2 : ℚ) ^ attempt ≤ 2 ^ (attempt + 1) :=
      pow_le_pow_right₀ (by norm_num) (Nat.le_succ attempt)
    exact mul_le_mul_of_nonneg_left h2 hpart
  · unfold goRawBackoff
    have h2 : (2 : ℤ) ^ attempt ≤ 2 ^ (attempt + 1) :=
      pow_le_pow_right₀ (by norm_num) (Nat.le_succ attempt)
    exact mul_le_mul_of_nonneg_left h2 hgo
  · unfold calculateBackoff
    have h1 : clampedBackoff gp attempt / 2 ≤ gp.maxDelay / 2 :=
      Int.ediv_le_ediv (by norm_num) hclamp
    have h2 : goJitterBound gp attempt ≤ 3 * gp.maxDelay / 4 := by
      unfold goJitterBound
      exact Int.ediv_le_ediv (by norm_num) (by linarith)
    linarith

theorem backoff_amended_witness :
    (0 : ℚ) ≤ defaultRetryPolicy.initialBackoff ∧
    (0 : ℤ) ≤ smallGoPolicy.minDelay ∧
    (5 : ℤ) < goJitterBound smallGoPolicy 0 ∧
    (partCalculateBackoff defaultRetryPolicy 0 0 ≤
      defaultRetryPolicy.maxBackoff ∧
    partRawBackoff defaultRetryPolicy 0 ≤ partRawBackoff defaultRetryPolicy 1 ∧
    goRawBackoff smallGoPolicy 0 ≤ goRawBackoff smallGoPolicy 1 ∧
    calculateBackoff smallGoPolicy 0 5 <
      smallGoPolicy.maxDelay / 2 + 3 * smallGoPolicy.maxDelay / 4) := by
  refine ⟨by decide, by decide, by decide, ?_⟩
  exact backoff_amended defaultRetryPolicy smallGoPolicy 0 0 5 (by decide)
    (by decide) (by decide)

/-- C4 (code evaluation at the failing input): the credential POST of `Login`
goes through `PostWithHeaders`, which sends via `Client.do` under the default
retry policy (`MaxRetries = 3`, retryable statuses 500/502/503/504).  When
the login endpoint answers 503 on every attempt — or the POST fails at the
network level — the credentials are posted 4 times, not once. -/
theorem login_post_retried :
    (clientDo defaultRetryPolicy all503).attempts = 4 ∧
    (clientDo defaultRetryPolicy allNetErr).attempts = 4 ∧
    clientDo defaultRetryPolicy all503 = ⟨Except.ok ⟨503⟩, 4⟩ := by
  exact ⟨rfl, rfl, rfl⟩

/-- C7 (code evaluation at the failing input): starting from a config whose
file already carries the password `hunter2`, a successful `Authenticate`
calls `Config.Save`, which runs `viper.Set("password", c.Password)` and
writes `config.yaml` — the password is persisted in plaintext, not just the
username, despite the call-site comment "don't save password for
security". -/
theorem password_persisted :
    (authenticate cfgWithSecret aliceName typedPw loginOkResp 0).2.configFile =
      some [(keyUsername, aliceName), (keyPassword, secretPw),
        (keyGmailEmail, ""), (keyKindleEmail, "")] ∧
    (keyPassword, secretPw) ∈
      configSave { cfgWithSecret with username := aliceName } := by
  exact ⟨rfl, by decide⟩

/-- C8 (counterexample): a persisted token whose expiry is Unix time 0 —
long in the past — still makes `IsAuthenticated` true, so `app.Run` skips the
interactive login flow even though the persisted session is expired. -/
theorem expired_session_counterexample :
    expiredTok.expiresAt < 1700000000 ∧
      runSkipsLogin (some (Except.ok expiredTok)) = true := by
  exact ⟨by decide, rfl⟩

/-- C8 (amended): at process start `app.Run` skips the interactive login flow
iff the persisted token file exists and parses; the stored expiry is never
consulted, so an expired persisted session bypasses login exactly like an
unexpired one. -/
theorem session_short_circuit_amended (tokenFile : Option (Except Unit Token)) :
    runSkipsLogin tokenFile = true ↔
      ∃ t, tokenFile = some (Except.ok t) := by
  rcases tokenFile with _ | f
  · simp [runSkipsLogin, isAuthenticated, getToken]
  · rcases f with e | t
    · simp [runSkipsLogin, isAuthenticated, getToken]
    · simp [runSkipsLogin, isAuthenticated, getToken]

theorem session_short_circuit_amended_witness :
    runSkipsLogin (some (Except.ok expiredTok)) = true ↔
      ∃ t, (some (Except.ok expiredTok) : Option (Except Unit Token)) =
        some (Except.ok t) :=
  session_short_circuit_amended (some (Except.ok expiredTok))

/-- C9 (counterexample): a login page placing the anti-forgery token only in
a meta tag (`<meta name="csrf-token" content="TOK123">`, with no `csrftoken`
response cookie) makes the cited `getCSRFToken` — which tries only the
response cookie and then the hidden-input regex — fail, even though the
token value is present and `extractCSRFToken` (a different variant, with no
access to cookies) finds it: no cited extraction routine implements all
three placements of the claim. -/
theorem csrf_placement_counterexample :
    getCSRFToken ([] : List (String × String)) metaFix = Except.error () ∧
      extractCSRFToken metaFix = Except.ok tokenVal := by
  exact ⟨rfl, rfl⟩

/-- C9 (amended): `getCSRFToken` tries, in order, the `csrftoken` response
cookie and then the hidden-input pattern, failing only if neither matches —
so the cookie and hidden-input placements of the same token value yield that
value, while a meta-tag-only placement fails; `extractCSRFToken` tries an
ordered pattern list (hidden input, meta tag, script/JSON forms, then two
generic fallbacks) and fails only if none match — so the hidden-input and
meta-tag placements yield the same value there, and a token-free page
fails. -/
theorem csrf_extraction_amended :
    getCSRFToken cookieFix emptyBody = Except.ok tokenVal ∧
    getCSRFToken ([] : List (String × String)) hiddenFix = Except.ok tokenVal ∧
    extractCSRFToken hiddenFix = Except.ok tokenVal ∧
    extractCSRFToken metaFix = Except.ok tokenVal ∧
    getCSRFToken ([] : List (String × String)) metaFix = Except.error () ∧
    extractCSRFToken noTokenFix = Except.error () ∧
    getCSRFToken ([] : List (String × String)) noTokenFix = Except.error () := by
  exact ⟨rfl, rfl, rfl, rfl, rfl, rfl, rfl⟩

end Koreilly
